import Mathlib

/-!
Verification of the dotman-cli diff/environment core against its
natural-language specification.

The TypeScript sources are shallowly embedded: JavaScript objects
(`Record<string, string>`) and `Map`s become association lists in insertion
order, JS string truthiness (`""` is falsy) is made explicit, and fallible
operations return `Except`.
-/

namespace Dotman

/-- Association-list lookup, mirroring JS `Map.get` / property access on a
record whose keys are unique.  Returns the first binding of the key. -/
def alist_get {α : Type} (m : List (String × α)) (k : String) : Option α :=
  match m with
  | [] => none
  | (k2, v) :: rest => if k2 = k then some v else alist_get rest k

/-- JS object property assignment `m[k] = v`: updates the existing binding in
place (keeping its position) or appends a fresh one. -/
def js_set {α : Type} (m : List (String × α)) (k : String) (v : α) : List (String × α) :=
  match m with
  | [] => [(k, v)]
  | (k2, v2) :: rest => if k2 = k then (k2, v) :: rest else (k2, v2) :: js_set rest k v

/-- JS `delete m[k]`. -/
def js_delete {α : Type} (m : List (String × α)) (k : String) : List (String × α) :=
  match m with
  | [] => []
  | (k2, v2) :: rest => if k2 = k then rest else (k2, v2) :: js_delete rest k

/-- `Object.fromEntries` / the `Map` constructor: later entries for the same
key overwrite earlier ones, first occurrence fixes the position. -/
def js_from_entries {α : Type} (l : List (String × α)) : List (String × α) :=
  l.foldl (fun m p => js_set m p.1 p.2) []

/-- Truthiness of an optional JS string (`undefined` and `""` are falsy). -/
def js_truthy_entry : Option String → Bool
  | none => false
  | some v => v != ""

/-! ## Diff engine (src/src/lib/diff.ts) -/

/-- `Secret` from src/src/lib/types.ts. -/
structure Secret where
  id : String
  title : String
  value : String
deriving DecidableEq, Repr

/-- A JS object such as a `Secret` is always truthy; the source's
`if (secret_value && ...)` guard tests the object, not its `.value`. -/
def js_truthy_secret (_ : Secret) : Bool := true

inductive DiffType
  | added
  | modified
  | deleted
deriving DecidableEq, Repr

/-- `DiffChange` from src/src/lib/diff.ts: absent optional fields are `none`. -/
structure DiffChange where
  type : DiffType
  key : String
  new_value : Option String := none
  old_value : Option String := none
deriving DecidableEq, Repr

/-- `DiffResult` from src/src/lib/diff.ts. -/
structure DiffResult where
  changes : List DiffChange
  added_count : Nat
  modified_count : Nat
  deleted_count : Nat
  total_count : Nat
deriving DecidableEq, Repr

/-- First loop of `calculate_push_diff`: iterate the local entries. -/
def push_local_changes (filtered_env_map : List (String × String))
    (secrets_map : List (String × Secret)) : List DiffChange :=
  match filtered_env_map with
  | [] => []
  | (env_key, env_value) :: rest =>
    match alist_get secrets_map env_key with
    | some existing_secret =>
      if existing_secret.value != env_value then
        { type := .modified, key := env_key, new_value := some env_value,
          old_value := some existing_secret.value } :: push_local_changes rest secrets_map
      else
        push_local_changes rest secrets_map
    | none =>
      { type := .added, key := env_key, new_value := some env_value }
        :: push_local_changes rest secrets_map

/-- Second loop of `calculate_push_diff`: iterate the remote secrets.  The
source guard is `secret_value && !filtered_env_map[secret_key]`, where
`secret_value` is the `Secret` object itself. -/
def push_deleted_changes (secrets_map : List (String × Secret))
    (filtered_env_map : List (String × String)) : List DiffChange :=
  match secrets_map with
  | [] => []
  | (secret_key, secret_value) :: rest =>
    if js_truthy_secret secret_value && !(js_truthy_entry (alist_get filtered_env_map secret_key)) then
      { type := .deleted, key := secret_key, old_value := some secret_value.value }
        :: push_deleted_changes rest filtered_env_map
    else
      push_deleted_changes rest filtered_env_map

/-- Number of changes of one type; the source's counters increment in
lockstep with the pushes, so they equal these counts of the final list. -/
def count_type (changes : List DiffChange) (t : DiffType) : Nat :=
  (changes.filter (fun c => c.type == t)).length

/-- `calculate_push_diff` from src/src/lib/diff.ts. -/
def calculate_push_diff (filtered_env_map : List (String × String))
    (secrets_map : List (String × Secret)) : DiffResult :=
  let changes := push_local_changes filtered_env_map secrets_map
    ++ push_deleted_changes secrets_map filtered_env_map
  let added_count := count_type changes .added
  let modified_count := count_type changes .modified
  let deleted_count := count_type changes .deleted
  { changes := changes, added_count := added_count, modified_count := modified_count,
    deleted_count := deleted_count,
    total_count := added_count + modified_count + deleted_count }

/-- First loop of `calculate_pull_diff`: iterate the remote entries.
The source tests `if (!local_value)`, so a present-but-empty local string
takes the `added` branch. -/
def pull_remote_changes (remote_secrets_map : List (String × String))
    (local_env_map : List (String × String)) : List DiffChange :=
  match remote_secrets_map with
  | [] => []
  | (remote_key, remote_value) :: rest =>
    let local_value := alist_get local_env_map remote_key
    if !(js_truthy_entry local_value) then
      { type := .added, key := remote_key, new_value := some remote_value }
        :: pull_remote_changes rest local_env_map
    else if local_value != some remote_value then
      { type := .modified, key := remote_key, old_value := local_value,
        new_value := some remote_value } :: pull_remote_changes rest local_env_map
    else
      pull_remote_changes rest local_env_map

/-- Second loop of `calculate_pull_diff`: iterate the local entries; the
source guard is `!remote_secrets_map[local_key] && !client_env_keys.includes(local_key)`. -/
def pull_deleted_changes (local_env_map : List (String × String))
    (remote_secrets_map : List (String × String)) (client_env_keys : List String) : List DiffChange :=
  match local_env_map with
  | [] => []
  | (local_key, local_value) :: rest =>
    if !(js_truthy_entry (alist_get remote_secrets_map local_key))
        && !(client_env_keys.contains local_key) then
      { type := .deleted, key := local_key, old_value := some local_value }
        :: pull_deleted_changes rest remote_secrets_map client_env_keys
    else
      pull_deleted_changes rest remote_secrets_map client_env_keys

/-- `calculate_pull_diff` from src/src/lib/diff.ts. -/
def calculate_pull_diff (local_env_map : List (String × String))
    (remote_secrets_map : List (String × String)) (client_env_keys : List String) : DiffResult :=
  let changes := pull_remote_changes remote_secrets_map local_env_map
    ++ pull_deleted_changes local_env_map remote_secrets_map client_env_keys
  let added_count := count_type changes .added
  let modified_count := count_type changes .modified
  let deleted_count := count_type changes .deleted
  { changes := changes, added_count := added_count, modified_count := modified_count,
    deleted_count := deleted_count,
    total_count := added_count + modified_count + deleted_count }

/-! ## Apply semantics (src/src/cmds push and pull commands) -/

/-- Placeholder for `uuid()`: freshly added secrets get an identifier that the
diff engine never inspects (it joins local and remote records by title only). -/
def uuid_placeholder : String := "uuid"

/-- `new Map(project.secrets.map(sec => [sec.title, sec]))`. -/
def secrets_by_title (secrets : List Secret) : List (String × Secret) :=
  js_from_entries (secrets.map (fun sec => (sec.title, sec)))

/-- One iteration of the push command's `--apply` loop.  `secrets_map` is the
title-keyed map built from the original secret list; mutation of a secret
object or removal targets the element with the mapped secret's identity. -/
def apply_push_change (project_secrets : List Secret)
    (secrets_map : List (String × Secret)) (change : DiffChange) : List Secret :=
  match change.type with
  | .added =>
    project_secrets ++ [{ id := uuid_placeholder, title := change.key,
                          value := change.new_value.getD "" }]
  | .modified =>
    match alist_get secrets_map change.key with
    | some existing_secret =>
      project_secrets.map (fun s =>
        if s.id = existing_secret.id then { s with value := change.new_value.getD "" } else s)
    | none => project_secrets
  | .deleted =>
    match alist_get secrets_map change.key with
    | some secret_to_delete =>
      project_secrets.filter (fun sec => sec.id != secret_to_delete.id)
    | none => project_secrets

/-- The push command's `--apply` loop over all changes. -/
def push_apply (project_secrets : List Secret) (changes : List DiffChange) : List Secret :=
  let secrets_map := secrets_by_title project_secrets
  changes.foldl (fun acc change => apply_push_change acc secrets_map change) project_secrets

/-- The pull command's `--apply` loop: `added`/`modified` set the key to
`change.new_value || ""`, `deleted` removes the key. -/
def pull_apply (environment_env_map : List (String × String))
    (changes : List DiffChange) : List (String × String) :=
  changes.foldl
    (fun m change =>
      match change.type with
      | .added => js_set m change.key (change.new_value.getD "")
      | .modified => js_set m change.key (change.new_value.getD "")
      | .deleted => js_delete m change.key)
    environment_env_map

namespace Dotenv

/-! ## Environment file store (write_env / read_env)

Paths and file contents are modelled at the character-list level so that all
functions are structurally recursive and kernel-evaluable. -/

/-- Split a character list at every occurrence of a separator character.
`split_at_char '/' "a/b"` yields the two segments; a leading or trailing
separator yields an empty segment, as `String.prototype.split` does. -/
def split_at_char (sep : Char) : List Char → List (List Char)
  | [] => [[]]
  | c :: cs =>
    match split_at_char sep cs with
    | [] => [[]]
    | l :: ls => if c = sep then [] :: l :: ls else (c :: l) :: ls

/-- One step of POSIX path normalization: empty and `.` segments vanish,
`..` removes the previous segment (at the root it stays at the root). -/
def norm_step (acc : List (List Char)) (seg : List Char) : List (List Char) :=
  if seg = [] ∨ seg = ['.'] then acc
  else if seg = ['.', '.'] then acc.dropLast
  else acc ++ [seg]

/-- Join normalized segments back into an absolute path. -/
def join_segs : List (List Char) → List Char
  | [] => []
  | [s] => s
  | s :: rest => s ++ '/' :: join_segs rest

/-- Render an absolute path from its segments. -/
def render_abs (segs : List (List Char)) : String :=
  String.mk ('/' :: join_segs segs)

/-- `path.resolve(cwd)` for an absolute `cwd`: pure normalization. -/
def canonicalize (cwd : String) : String :=
  render_abs (((split_at_char '/' cwd.data)).foldl norm_step [])

/-- `path.resolve(cwd, name)`: an absolute `name` stands alone, otherwise it
is resolved against `cwd`; the result is normalized. -/
def path_resolve (cwd name : String) : String :=
  let cs := if name.data.head? = some '/' then name.data else cwd.data ++ '/' :: name.data
  render_abs ((split_at_char '/' cs).foldl norm_step [])

/-- The traversal check shared by `write_env` and `read_env`:
`!final_path.startsWith(canonical_cwd + path.sep) && final_path !== canonical_cwd`. -/
def path_escapes (cwd name : String) : Bool :=
  let final_path := path_resolve cwd name
  let canonical_cwd := canonicalize cwd
  !((canonical_cwd ++ "/").data.isPrefixOf final_path.data) && final_path != canonical_cwd

/-- A file on disk: its text plus whether `lstat` reports a symbolic link. -/
structure FsEntry where
  content : String
  symlinked : Bool
deriving DecidableEq, Repr

/-- The file system as a map from absolute path to entry. -/
def Fs : Type := List (String × FsEntry)

instance : DecidableEq Fs := by
  unfold Fs
  infer_instance

def fs_get (fs : Fs) (p : String) : Option FsEntry := Dotman.alist_get fs p

def fs_set (fs : Fs) (p : String) (e : FsEntry) : Fs := Dotman.js_set fs p e

/-- Whether `lstat` at a path reports a symlink (a missing file does not). -/
def symlink_at (fs : Fs) (p : String) : Bool :=
  match fs_get fs p with
  | some e => e.symlinked
  | none => false

inductive DotenvErr
  | path_escape
  | symlink_rejected
  | not_found
  | parse_failed
deriving DecidableEq, Repr

/-- Modelled from the spec: the `dotenv-stringify` library is not part of
src.  §6 prescribes `KEY=VALUE` line-oriented text with optional quoting of
values containing whitespace or `=`; the model quotes exactly the values
whose unquoted form would be ambiguous (whitespace, `=`, `#`, or a leading
quote). -/
def needs_quote (vs : List Char) : Bool :=
  vs.contains ' ' || vs.contains '\t' || vs.contains '=' || vs.contains '#'
    || decide (vs.head? = some '"')

def encode_value (vs : List Char) : List Char :=
  if needs_quote vs then '"' :: (vs ++ ['"']) else vs

/-- One `KEY=VALUE` line. -/
def encode_entry (p : String × String) : List Char :=
  p.1.data ++ '=' :: encode_value p.2.data

/-- Lines are joined with a bare `"\n"`, as the library does. -/
def join_lines : List (List Char) → List Char
  | [] => []
  | [l] => l
  | l :: ls => l ++ '\n' :: join_lines ls

/-- Modelled from the spec: serialize a map to `KEY=VALUE` lines. -/
def dotenv_stringify (items : List (String × String)) : String :=
  String.mk (join_lines (items.map encode_entry))

/-- Strip one layer of surrounding double quotes, if present. -/
def unquote (vs : List Char) : List Char :=
  if vs.head? = some '"' ∧ vs.getLast? = some '"' ∧ 2 ≤ vs.length then
    (vs.drop 1).dropLast
  else vs

inductive LineParse
  | skip
  | entry (k v : String)
  | bad
deriving DecidableEq, Repr

/-- Modelled from the spec: parse one line of standard dotenv syntax — blank
lines and `#` comment lines are ignored, other lines split at the first `=`
into key and (possibly quoted) value; a line without `=` is malformed. -/
def parse_line (cs : List Char) : LineParse :=
  if cs.all (fun c => c.isWhitespace) then .skip
  else if cs.head? = some '#' then .skip
  else if '=' ∈ cs then
    .entry (String.mk (cs.takeWhile (fun c => c != '=')))
      (String.mk (unquote ((cs.dropWhile (fun c => c != '=')).drop 1)))
  else .bad

def parse_lines : List (List Char) → Option (List (String × String))
  | [] => some []
  | l :: ls =>
    match parse_line l with
    | .bad => none
    | .skip => parse_lines ls
    | .entry k v => (parse_lines ls).map (fun m => (k, v) :: m)

/-- Modelled from the spec: the `dotenv` `parse` library function. -/
def dotenv_parse (s : String) : Option (List (String × String)) :=
  parse_lines (split_at_char '\n' s.data)

/-- `write_env` from the environment file store: serialize, reject escaping
paths, reject symlinks, then store the text. -/
def write_env (fs : Fs) (cwd : String) (items : List (String × String))
    (env_file_name : String) : Except DotenvErr Fs :=
  let final_str := dotenv_stringify items
  let final_path := path_resolve cwd env_file_name
  if path_escapes cwd env_file_name then .error .path_escape
  else if symlink_at fs final_path then .error .symlink_rejected
  else .ok (fs_set fs final_path { content := final_str, symlinked := false })

/-- `read_env` from the environment file store: reject escaping paths, reject
symlinks, report a missing file, map blank content to the empty map, and
parse everything else. -/
def read_env (fs : Fs) (cwd : String) (env_file_name : String) :
    Except DotenvErr (List (String × String)) :=
  let final_path := path_resolve cwd env_file_name
  if path_escapes cwd env_file_name then .error .path_escape
  else
    match fs_get fs final_path with
    | none => .error .not_found
    | some e =>
      if e.symlinked then .error .symlink_rejected
      else if e.content.data.all (fun c => c.isWhitespace) then .ok []
      else
        match dotenv_parse e.content with
        | some env_map => .ok env_map
        | none => .error .parse_failed

end Dotenv

/-! ## Environment registry and state (src/src/lib/environment.ts) -/

/-- JS `String.prototype.trim`. -/
def js_trim (s : String) : String :=
  String.mk (((s.data.dropWhile Char.isWhitespace).reverse.dropWhile Char.isWhitespace).reverse)

/-- Substring search, as JS `String.prototype.includes`. -/
def has_sub (hay pat : List Char) : Bool :=
  match hay with
  | [] => pat.isEmpty
  | c :: rest => pat.isPrefixOf (c :: rest) || has_sub rest pat

def str_includes (s sub : String) : Bool := has_sub s.data sub.data

/-- `project_environment_separator` from src/src/constants.ts. -/
def project_environment_separator : String := "__"

/-- The reserved filesystem-unsafe characters, in source order. -/
def invalid_chars : List Char := ['/', '\\', '?', '*', ':', '|', '<', '>', '"']

inductive NameError
  | name_empty
  | name_contains_separator
  | name_invalid_chars (found : List Char)
  | name_path_traversal
deriving DecidableEq, Repr

/-- The offending characters found in a trimmed name, in source order
(`invalid_chars.filter(char => trimmed.includes(char))`). -/
def found_invalid (trimmed : String) : List Char :=
  invalid_chars.filter (fun c => trimmed.data.contains c)

/-- `validate_environment_name` from src/src/lib/environment.ts.  The
`name_invalid_chars` error carries every offending character found. -/
def validate_environment_name (environment : String) : Except NameError String :=
  if (js_trim environment).data.length = 0 then .error .name_empty
  else if str_includes (js_trim environment) project_environment_separator then
    .error .name_contains_separator
  else if found_invalid (js_trim environment) ≠ [] then
    .error (.name_invalid_chars (found_invalid (js_trim environment)))
  else if str_includes (js_trim environment) ".." then .error .name_path_traversal
  else .ok (js_trim environment)

/-- A JSON value, as produced by `JSON.parse` on the state file. -/
inductive Js
  | nul
  | str (s : String)
  | num (n : Int)
  | obj (entries : List (String × Js))

/-- What reading the global state file can yield: the file is missing
(ENOENT), some other I/O failure occurred, the content is not JSON, or it
parsed to an object document. -/
inductive StateRead
  | enoent
  | ioerr
  | malformed
  | parsed (entries : List (String × Js))

structure EnvWorld where
  cwd : String
  state : StateRead

inductive EnvErr
  | failed_to_read_state
deriving DecidableEq, Repr

/-- `get_current_environment` from src/src/lib/environment.ts: ENOENT and
unparsable content fall back to `"master"`, any other read failure is an
error, and an entry for the working directory is returned as stored
(`parsed_value[cwd]`), whatever JSON value it holds. -/
def get_current_environment (w : EnvWorld) : Except EnvErr Js :=
  match w.state with
  | .enoent => .ok (.str "master")
  | .ioerr => .error .failed_to_read_state
  | .malformed => .ok (.str "master")
  | .parsed entries =>
    match alist_get entries w.cwd with
    | none => .ok (.str "master")
    | some v => .ok v

/-- The state document as `save_current_env` sees it after `JSON.parse`:
missing and corrupt files are self-healed to the empty object. -/
inductive StateDoc
  | malformed
  | obj (entries : List (String × String))
deriving DecidableEq, Repr

/-- The world `save_current_env` acts on: whether `fs.access(cwd + "/.env")`
succeeds, and the current state file (`none` is ENOENT). -/
structure ProjWorld where
  cwd : String
  env_file_exists : Bool
  state_file : Option StateDoc
deriving DecidableEq, Repr

inductive SaveErr
  | validation (e : NameError)
  | not_valid_project
deriving DecidableEq, Repr

instance {ε α : Type} [DecidableEq ε] [DecidableEq α] : DecidableEq (Except ε α) := fun x y =>
  match x, y with
  | .ok a, .ok b => if h : a = b then .isTrue (by rw [h]) else .isFalse (by simp [h])
  | .error a, .error b => if h : a = b then .isTrue (by rw [h]) else .isFalse (by simp [h])
  | .ok _, .error _ => .isFalse (by simp)
  | .error _, .ok _ => .isFalse (by simp)

structure SaveOutcome where
  result : Except SaveErr Unit
  world : ProjWorld
deriving DecidableEq, Repr

/-- `save_current_env` from src/src/lib/environment.ts: validate the name,
fail with the "not a valid project" error when the working directory has no
`.env` file (leaving the state file untouched), otherwise load the state
document (ENOENT and corrupt content self-heal to `{}`), set this
directory's entry and write the document back
(`{ ...json, [cwd]: environment }`). -/
def save_current_env (name : String) (w : ProjWorld) : SaveOutcome :=
  match validate_environment_name name with
  | .error e => { result := .error (.validation e), world := w }
  | .ok environment =>
    if !w.env_file_exists then { result := .error .not_valid_project, world := w }
    else
      let existing : List (String × String) :=
        match w.state_file with
        | none => []
        | some .malformed => []
        | some (.obj entries) => entries
      let updated := js_set existing w.cwd environment
      { result := .ok (), world := { w with state_file := some (.obj updated) } }

/-! ## The pull command (src/src/cmds/pull.ts) -/

/-- `Project` from src/src/lib/types.ts. -/
structure Project where
  id : String
  title : String
  secrets : List Secret
deriving DecidableEq, Repr

/-- `Object.fromEntries(project.secrets.map(i => [i.title, i.value]))`. -/
def pull_secrets_map (project : Project) : List (String × String) :=
  js_from_entries (project.secrets.map (fun i => (i.title, i.value)))

/-- `Object.keys(secrets_map).filter(key => client_env_keys.includes(key))`. -/
def pull_client_overlap (project : Project) (client_env_keys : List String) : List String :=
  ((pull_secrets_map project).map (fun p => p.1)).filter (fun k => client_env_keys.contains k)

/-- What the pull command does after the remote project has been fetched:
which message it renders, whether it previews a diff, or which map it writes
back to the environment file. -/
inductive PullOutcome
  | client_keys_warning (keys : List String)
  | no_secrets (title : String)
  | up_to_date
  | preview (d : DiffResult)
  | applied (m : List (String × String))
deriving DecidableEq, Repr

/-- The tail of `pull_cmd` (src/src/cmds/pull.ts) from the point where the
local maps, the remote project and the provider's client keys are in hand:
warn and return when any remote secret title is a client env key, report an
empty remote, compute the pull diff, then preview or apply it. -/
def pull_cmd_core (apply : Bool) (environment_env_map : List (String × String))
    (project : Project) (client_env_keys : List String) : PullOutcome :=
  if (pull_client_overlap project client_env_keys).length > 0 then
    .client_keys_warning (pull_client_overlap project client_env_keys)
  else if (pull_secrets_map project).length = 0 then .no_secrets project.title
  else if (calculate_pull_diff environment_env_map (pull_secrets_map project)
      client_env_keys).total_count = 0 then .up_to_date
  else if apply then
    .applied (pull_apply environment_env_map
      (calculate_pull_diff environment_env_map (pull_secrets_map project) client_env_keys).changes)
  else .preview (calculate_pull_diff environment_env_map (pull_secrets_map project) client_env_keys)

/-! ## Claims about the diff engine -/

/-- C1: the partition invariant fails on the code: with the local map
`{PULL: ""}` and a remote secret `PULL` of value `"value"`, the push diff
emits both a `modified` and a `deleted` change for the key `PULL`, because
the deletion guard treats the empty local string as absent. -/
theorem C1_push_duplicate_key :
    calculate_push_diff [("PULL", "")] [("PULL", ⟨"1", "PULL", "value"⟩)] =
      { changes := [
          { type := .modified, key := "PULL", new_value := some "", old_value := some "value" },
          { type := .deleted, key := "PULL", old_value := some "value" }],
        added_count := 0, modified_count := 1, deleted_count := 1, total_count := 2 } ∧
    ¬ ((calculate_push_diff [("PULL", "")]
        [("PULL", ⟨"1", "PULL", "value"⟩)]).changes.map (fun c => c.key)).Nodup := by
  constructor
  · rfl
  · decide

/-- C2: `calculate_pull_diff({KEY: ""}, {KEY: "remote_value"}, [])` emits an
`added` change, not the `modified` change the claim (and the repository's own
test) requires: the empty local string is falsy, so the `added` branch fires. -/
theorem C2_pull_empty_local_added :
    calculate_pull_diff [("KEY", "")] [("KEY", "remote_value")] [] =
      { changes := [
          { type := .added, key := "KEY", new_value := some "remote_value" }],
        added_count := 1, modified_count := 0, deleted_count := 0, total_count := 1 } := by
  rfl

/-- C3: for a remote-only secret the push diff emits a `deleted` change even
when the remote value is the empty string: the guard `secret_value && ...`
tests the `Secret` object (always truthy), not its value.  The non-empty
case behaves as the claim states. -/
theorem C3_push_remote_only :
    calculate_push_diff [] [("K", ⟨"1", "K", "v"⟩)] =
      { changes := [{ type := .deleted, key := "K", old_value := some "v" }],
        added_count := 0, modified_count := 0, deleted_count := 1, total_count := 1 } ∧
    calculate_push_diff [] [("K", ⟨"1", "K", ""⟩)] =
      { changes := [{ type := .deleted, key := "K", old_value := some "" }],
        added_count := 0, modified_count := 0, deleted_count := 1, total_count := 1 } := by
  exact ⟨rfl, rfl⟩

/-- C4: push idempotence fails.  With local `{K: ""}` and remote secret
`K = "v"`, the diff emits `modified` and `deleted` for `K`; fully applying
both first rewrites the secret's value and then deletes it, so the re-run
diff reports one `added` change (`total_count = 1`), not `0`. -/
theorem C4_push_not_idempotent :
    (calculate_push_diff [("K", "")]
      (secrets_by_title
        (push_apply [⟨"1", "K", "v"⟩]
          (calculate_push_diff [("K", "")]
            (secrets_by_title [⟨"1", "K", "v"⟩])).changes))).total_count = 1 := by
  rfl

/-! ## Helper lemmas -/

theorem alist_get_js_set {α : Type} (m : List (String × α)) (k : String) (v : α) :
    alist_get (js_set m k v) k = some v := by
  induction m with
  | nil => simp [js_set, alist_get]
  | cons p rest ih =>
    obtain ⟨k2, v2⟩ := p
    by_cases h : k2 = k
    · simp [js_set, alist_get, h]
    · simp [js_set, alist_get, h, ih]

theorem data_len_zero_iff (t : String) : t.data.length = 0 ↔ t = "" := by
  constructor
  · intro h
    cases t with
    | mk l =>
      cases l with
      | nil => rfl
      | cons c cs => simp at h
  · intro h
    subst h
    rfl

namespace Dotenv

theorem split_at_char_ne_nil (sep : Char) (cs : List Char) : split_at_char sep cs ≠ [] := by
  induction cs with
  | nil => simp [split_at_char]
  | cons c cs ih =>
    simp only [split_at_char]
    cases h : split_at_char sep cs with
    | nil => simp
    | cons l ls =>
      dsimp only
      split <;> simp

theorem split_at_char_no_sep (sep : Char) (l : List Char) (h : sep ∉ l) :
    split_at_char sep l = [l] := by
  induction l with
  | nil => rfl
  | cons c cs ih =>
    have hc : c ≠ sep := fun he => h (by simp [he])
    have hcs : sep ∉ cs := fun hm => h (by simp [hm])
    simp only [split_at_char]
    rw [ih hcs]
    simp [hc]

theorem split_at_char_append (sep : Char) (l t : List Char) (h : sep ∉ l) :
    split_at_char sep (l ++ sep :: t) = l :: split_at_char sep t := by
  induction l with
  | nil =>
    simp only [List.nil_append, split_at_char]
    cases hs : split_at_char sep t with
    | nil => exact absurd hs (split_at_char_ne_nil sep t)
    | cons x xs => simp
  | cons c cs ih =>
    have hc : c ≠ sep := fun he => h (by simp [he])
    have hcs : sep ∉ cs := fun hm => h (by simp [hm])
    show split_at_char sep (c :: (cs ++ sep :: t)) = (c :: cs) :: split_at_char sep t
    simp only [split_at_char]
    rw [ih hcs]
    simp [hc]

theorem split_join_lines (ls : List (List Char)) (h : ∀ l ∈ ls, '\n' ∉ l) (hne : ls ≠ []) :
    split_at_char '\n' (join_lines ls) = ls := by
  induction ls with
  | nil => exact absurd rfl hne
  | cons l rest ih =>
    cases rest with
    | nil => exact split_at_char_no_sep '\n' l (h l (by simp))
    | cons l2 rest2 =>
      show split_at_char '\n' (l ++ '\n' :: join_lines (l2 :: rest2)) = _
      rw [split_at_char_append '\n' l _ (h l (by simp))]
      rw [ih (fun x hx => h x (by simp [hx])) (by simp)]

theorem takeWhile_until_eq (l r : List Char) (h : '=' ∉ l) :
    (l ++ '=' :: r).takeWhile (fun c => c != '=') = l := by
  induction l with
  | nil => simp [List.takeWhile]
  | cons c cs ih =>
    have hc : c ≠ '=' := fun he => h (by simp [he])
    have hcs : '=' ∉ cs := fun hm => h (by simp [hm])
    simp only [List.cons_append, List.takeWhile_cons]
    simp [hc, ih hcs]

theorem dropWhile_until_eq (l r : List Char) (h : '=' ∉ l) :
    (l ++ '=' :: r).dropWhile (fun c => c != '=') = '=' :: r := by
  induction l with
  | nil => simp [List.dropWhile]
  | cons c cs ih =>
    have hc : c ≠ '=' := fun he => h (by simp [he])
    have hcs : '=' ∉ cs := fun hm => h (by simp [hm])
    simp only [List.cons_append, List.dropWhile_cons]
    simp [hc, ih hcs]

theorem unquote_encode_value (vs : List Char) : unquote (encode_value vs) = vs := by
  by_cases h : needs_quote vs = true
  · have he : encode_value vs = '"' :: (vs ++ ['"']) := by
      unfold encode_value
      rw [if_pos h]
    rw [he]
    unfold unquote
    rw [if_pos]
    · simp
    · refine ⟨rfl, ?_, by simp⟩
      rw [show ('"' :: (vs ++ ['"'])) = (('"' :: vs) ++ ['"']) by simp]
      exact List.getLast?_concat _
  · have hq : vs.head? ≠ some '"' := by
      intro hh
      apply h
      unfold needs_quote
      simp [hh]
    have he : encode_value vs = vs := by
      unfold encode_value
      rw [if_neg h]
    rw [he]
    unfold unquote
    rw [if_neg (fun hcond => hq hcond.1)]

theorem encode_value_no_newline (vs : List Char) (hv : '\n' ∉ vs) :
    '\n' ∉ encode_value vs := by
  unfold encode_value
  split
  · intro hm
    rcases List.mem_cons.mp hm with hc | h4
    · exact absurd hc (by decide)
    · rcases List.mem_append.mp h4 with h5 | h6
      · exact hv h5
      · exact absurd (List.mem_singleton.mp h6) (by decide)
  · exact hv

theorem encode_entry_no_newline (p : String × String)
    (hk : '\n' ∉ p.1.data) (hv : '\n' ∉ p.2.data) : '\n' ∉ encode_entry p := by
  unfold encode_entry
  intro hmem
  rcases List.mem_append.mp hmem with h1 | h2
  · exact hk h1
  · rcases List.mem_cons.mp h2 with he | h3
    · exact absurd he (by decide)
    · exact encode_value_no_newline p.2.data hv h3

theorem all_ws_false_of_mem_eq (cs : List Char) (h : '=' ∈ cs) :
    (cs.all (fun c => c.isWhitespace)) = false := by
  rw [Bool.eq_false_iff]
  intro hall
  rw [List.all_eq_true] at hall
  exact absurd (hall '=' h) (by decide)

theorem eq_mem_encode_entry (p : String × String) : '=' ∈ encode_entry p := by
  unfold encode_entry
  exact List.mem_append.mpr (Or.inr (by simp))

theorem parse_line_encode (p : String × String)
    (hne : p.1.data ≠ []) (heq : '=' ∉ p.1.data) (hhash : p.1.data.head? ≠ some '#') :
    parse_line (encode_entry p) = .entry p.1 p.2 := by
  have h1 : ((encode_entry p).all (fun c => c.isWhitespace)) = false :=
    all_ws_false_of_mem_eq _ (eq_mem_encode_entry p)
  have h2 : ¬ ((encode_entry p).head? = some '#') := by
    intro hsome
    cases hd : p.1.data with
    | nil => exact hne hd
    | cons c cs =>
      unfold encode_entry at hsome
      rw [hd, List.cons_append, List.head?_cons] at hsome
      rw [hd, List.head?_cons] at hhash
      exact hhash hsome
  unfold parse_line
  rw [h1]
  rw [if_neg (by simp), if_neg h2, if_pos (eq_mem_encode_entry p)]
  unfold encode_entry
  rw [takeWhile_until_eq _ _ heq, dropWhile_until_eq _ _ heq]
  simp only [List.drop_succ_cons, List.drop_zero, unquote_encode_value]

theorem parse_lines_encode (items : List (String × String))
    (h : ∀ p ∈ items, p.1.data ≠ [] ∧ '=' ∉ p.1.data ∧ p.1.data.head? ≠ some '#') :
    parse_lines (items.map encode_entry) = some items := by
  induction items with
  | nil => rfl
  | cons p rest ih =>
    obtain ⟨h1, h2, h3⟩ := h p (by simp)
    simp only [List.map_cons, parse_lines, parse_line_encode p h1 h2 h3]
    rw [ih (fun q hq => h q (by simp [hq]))]
    rfl

theorem stringify_not_blank (p : String × String) (rest : List (String × String)) :
    ((dotenv_stringify (p :: rest)).data.all (fun c => c.isWhitespace)) = false := by
  apply all_ws_false_of_mem_eq
  show '=' ∈ join_lines ((p :: rest).map encode_entry)
  have hline : '=' ∈ encode_entry p := eq_mem_encode_entry p
  simp only [List.map_cons]
  cases hre : rest.map encode_entry with
  | nil => exact hline
  | cons l ls => exact List.mem_append.mpr (Or.inl hline)

end Dotenv

/-! ## Claims about the environment file store -/

/-- C5 (counterexample): the round trip is not the identity for every map
with non-empty, newline-free keys and values: a key that begins with `#`
(and contains `=`) serializes to a comment line, so reading back yields the
empty map. -/
theorem C5_roundtrip_cex :
    (Dotenv.write_env [] "/work" [("#A=B", "c")] "f").bind
      (fun fs2 => Dotenv.read_env fs2 "/work" "f") ≠ .ok [("#A=B", "c")] := by
  decide

/-- C5 (amended): writing a map with `write_env` and reading it back with
`read_env` on the same file name returns an equal map, provided keys are
non-empty, contain no raw newline and no `=`, and do not begin with `#`, and
values contain no raw newline (and the target is not a symlink). -/
theorem C5_roundtrip (fs : Dotenv.Fs) (items : List (String × String))
    (hkeys : ∀ p ∈ items, p.1.data ≠ [] ∧ '\n' ∉ p.1.data ∧ '=' ∉ p.1.data ∧
      p.1.data.head? ≠ some '#')
    (hvals : ∀ p ∈ items, '\n' ∉ p.2.data)
    (hsym : Dotenv.symlink_at fs (Dotenv.path_resolve "/work" "f") = false) :
    (Dotenv.write_env fs "/work" items "f").bind
      (fun fs2 => Dotenv.read_env fs2 "/work" "f") = .ok items := by
  have hesc : ¬ (Dotenv.path_escapes "/work" "f" = true) := by decide
  have hsym' : ¬ (Dotenv.symlink_at fs (Dotenv.path_resolve "/work" "f") = true) := by
    rw [hsym]
    simp
  have hget : Dotenv.fs_get
      (Dotenv.fs_set fs (Dotenv.path_resolve "/work" "f")
        { content := Dotenv.dotenv_stringify items, symlinked := false })
      (Dotenv.path_resolve "/work" "f") =
      some { content := Dotenv.dotenv_stringify items, symlinked := false } :=
    alist_get_js_set fs _ _
  unfold Dotenv.write_env
  rw [if_neg hesc, if_neg hsym']
  show Dotenv.read_env _ "/work" "f" = .ok items
  unfold Dotenv.read_env
  rw [if_neg hesc, hget]
  show (if (Dotenv.dotenv_stringify items).data.all (fun c => c.isWhitespace) = true
      then Except.ok []
      else match Dotenv.dotenv_parse (Dotenv.dotenv_stringify items) with
        | some env_map => Except.ok env_map
        | none => Except.error Dotenv.DotenvErr.parse_failed) = Except.ok items
  cases items with
  | nil => rfl
  | cons p rest =>
    rw [if_neg (by rw [Dotenv.stringify_not_blank]; simp)]
    have hparse : Dotenv.dotenv_parse (Dotenv.dotenv_stringify (p :: rest)) = some (p :: rest) := by
      unfold Dotenv.dotenv_parse
      have hdata : (Dotenv.dotenv_stringify (p :: rest)).data =
          Dotenv.join_lines ((p :: rest).map Dotenv.encode_entry) := rfl
      rw [hdata]
      rw [Dotenv.split_join_lines _
        (fun l hl => by
          obtain ⟨q, hq, rfl⟩ := List.mem_map.mp hl
          exact Dotenv.encode_entry_no_newline q ((hkeys q hq).2.1) (hvals q hq))
        (by simp)]
      exact Dotenv.parse_lines_encode _
        (fun q hq => ⟨(hkeys q hq).1, (hkeys q hq).2.2.1, (hkeys q hq).2.2.2⟩)
    rw [hparse]

/-- C5 (witness): the round trip at the concrete map `{FOO: "bar"}` on an
empty file system. -/
theorem C5_roundtrip_witness :
    (Dotenv.write_env [] "/work" [("FOO", "bar")] "f").bind
      (fun fs2 => Dotenv.read_env fs2 "/work" "f") = .ok [("FOO", "bar")] :=
  C5_roundtrip [] [("FOO", "bar")] (by decide) (by decide) (by decide)

/-- C6: any file name whose resolution against the working directory is
neither the canonicalized working directory nor a strict descendant of it is
rejected with the path-escape error by both `read_env` and `write_env`, for
every file-system state — the check precedes any file-system access. -/
theorem C6_path_escape_rejected (cwd name : String) (fs : Dotenv.Fs)
    (items : List (String × String))
    (hdesc : ((Dotenv.canonicalize cwd ++ "/").data.isPrefixOf
      (Dotenv.path_resolve cwd name).data) = false)
    (hne : Dotenv.path_resolve cwd name ≠ Dotenv.canonicalize cwd) :
    Dotenv.read_env fs cwd name = .error .path_escape ∧
    Dotenv.write_env fs cwd items name = .error .path_escape := by
  have hesc : Dotenv.path_escapes cwd name = true := by
    show (!(Dotenv.canonicalize cwd ++ "/").data.isPrefixOf (Dotenv.path_resolve cwd name).data
      && Dotenv.path_resolve cwd name != Dotenv.canonicalize cwd) = true
    rw [hdesc]
    simp [bne_iff_ne, hne]
  constructor
  · unfold Dotenv.read_env
    rw [if_pos hesc]
  · unfold Dotenv.write_env
    rw [if_pos hesc]

/-- C6 (witness): `"../outside"` escapes `"/work"` and is rejected by both
operations even though the resolved target `"/outside"` exists. -/
theorem C6_path_escape_witness :
    Dotenv.read_env [("/outside", { content := "X=1", symlinked := false })]
      "/work" "../outside" = .error .path_escape ∧
    Dotenv.write_env [("/outside", { content := "X=1", symlinked := false })]
      "/work" [("A", "b")] "../outside" = .error .path_escape :=
  C6_path_escape_rejected "/work" "../outside" _ _ (by decide) (by decide)

/-! ## Claims about the environment registry and state -/

/-- C7: `validate_environment_name` trims its input and checks, in exact
precedence order: empty after trimming, then the project/environment
separator, then the reserved characters (the error carrying every offending
character found, in source order), then the substring `".."`; on success it
returns the trimmed name.  `"  dev  "` validates to `"dev"`, `"a/b"` fails
listing `/`, `"..x"` fails as path traversal, and `"master"` is accepted. -/
theorem C7_validate_environment_name_spec :
    (∀ s, js_trim s = "" → validate_environment_name s = .error .name_empty) ∧
    (∀ s, js_trim s ≠ "" →
      str_includes (js_trim s) project_environment_separator = true →
      validate_environment_name s = .error .name_contains_separator) ∧
    (∀ s, js_trim s ≠ "" →
      str_includes (js_trim s) project_environment_separator = false →
      found_invalid (js_trim s) ≠ [] →
      validate_environment_name s = .error (.name_invalid_chars (found_invalid (js_trim s)))) ∧
    (∀ s, js_trim s ≠ "" →
      str_includes (js_trim s) project_environment_separator = false →
      found_invalid (js_trim s) = [] →
      str_includes (js_trim s) ".." = true →
      validate_environment_name s = .error .name_path_traversal) ∧
    (∀ s, js_trim s ≠ "" →
      str_includes (js_trim s) project_environment_separator = false →
      found_invalid (js_trim s) = [] →
      str_includes (js_trim s) ".." = false →
      validate_environment_name s = .ok (js_trim s)) ∧
    validate_environment_name "  dev  " = .ok "dev" ∧
    validate_environment_name "a/b" = .error (.name_invalid_chars ['/']) ∧
    validate_environment_name "..x" = .error .name_path_traversal ∧
    validate_environment_name "master" = .ok "master" := by
  refine ⟨?_, ?_, ?_, ?_, ?_, by decide, by decide, by decide, by decide⟩
  · intro s h
    unfold validate_environment_name
    rw [if_pos ((data_len_zero_iff _).mpr h)]
  · intro s h hsep
    unfold validate_environment_name
    rw [if_neg (fun hh => h ((data_len_zero_iff _).mp hh)), if_pos hsep]
  · intro s h hsep hfound
    unfold validate_environment_name
    rw [if_neg (fun hh => h ((data_len_zero_iff _).mp hh)),
      if_neg (by rw [hsep]; simp), if_pos hfound]
  · intro s h hsep hfound hdots
    unfold validate_environment_name
    rw [if_neg (fun hh => h ((data_len_zero_iff _).mp hh)),
      if_neg (by rw [hsep]; simp), if_neg (fun hh => hh hfound), if_pos hdots]
  · intro s h hsep hfound hdots
    unfold validate_environment_name
    rw [if_neg (fun hh => h ((data_len_zero_iff _).mp hh)),
      if_neg (by rw [hsep]; simp), if_neg (fun hh => hh hfound),
      if_neg (by rw [hdots]; simp)]

/-- C7 (witness): `"  qa*:x "` is trimmed and rejected with an error listing
both offending characters `*` and `:`. -/
theorem C7_validate_witness :
    validate_environment_name "  qa*:x " = .error (.name_invalid_chars ['*', ':']) :=
  C7_validate_environment_name_spec.2.2.1 "  qa*:x " (by decide) (by decide) (by decide)

/-- C8 (counterexample): when the state file holds an entry for the working
directory whose stored value is not a usable string (here JSON `null`),
`get_current_environment` returns that raw value, not `"master"` as the
claim requires. -/
theorem C8_unusable_value_cex :
    get_current_environment ⟨"/proj", .parsed [("/proj", Js.nul)]⟩ ≠ .ok (.str "master") := by
  intro h
  have he : get_current_environment ⟨"/proj", .parsed [("/proj", Js.nul)]⟩ = .ok Js.nul := rfl
  rw [he] at h
  exact Js.noConfusion (Except.ok.inj h)

/-- C8 (amended): `get_current_environment` returns `ok("master")` when the
state file is missing (ENOENT), when its content fails to parse as JSON, or
when the parsed object has no entry for the working directory; when an entry
exists its stored value is returned unchanged (even when it is not a usable
string); only an I/O failure other than file-not-found is an error. -/
theorem C8_get_current_environment_spec :
    (∀ w : EnvWorld, w.state = .enoent →
      get_current_environment w = .ok (.str "master")) ∧
    (∀ w : EnvWorld, w.state = .malformed →
      get_current_environment w = .ok (.str "master")) ∧
    (∀ (w : EnvWorld) (es : List (String × Js)), w.state = .parsed es →
      alist_get es w.cwd = none →
      get_current_environment w = .ok (.str "master")) ∧
    (∀ (w : EnvWorld) (es : List (String × Js)) (v : Js), w.state = .parsed es →
      alist_get es w.cwd = some v →
      get_current_environment w = .ok v) ∧
    (∀ w : EnvWorld, w.state = .ioerr →
      get_current_environment w = .error .failed_to_read_state) := by
  refine ⟨?_, ?_, ?_, ?_, ?_⟩
  · intro w h
    unfold get_current_environment
    rw [h]
  · intro w h
    unfold get_current_environment
    rw [h]
  · intro w es h hl
    unfold get_current_environment
    rw [h]
    dsimp only
    rw [hl]
  · intro w es v h hl
    unfold get_current_environment
    rw [h]
    dsimp only
    rw [hl]
  · intro w h
    unfold get_current_environment
    rw [h]

/-- C8 (witness): a stored string entry for the working directory is
returned as stored. -/
theorem C8_get_current_environment_witness :
    get_current_environment ⟨"/p", .parsed [("/p", Js.str "dev")]⟩ = .ok (.str "dev") :=
  C8_get_current_environment_spec.2.2.2.1 ⟨"/p", .parsed [("/p", Js.str "dev")]⟩
    [("/p", Js.str "dev")] (Js.str "dev") rfl rfl

/-- C9: for every environment name that passes validation,
`save_current_env` fails with the "not a valid project" error whenever no
`.env` file is accessible in the working directory, and in that situation
the global state file is never read or written (the world is returned
unchanged for every name). -/
theorem C9_save_requires_env_file :
    (∀ (name : String) (w : ProjWorld) (t : String),
      validate_environment_name name = .ok t → w.env_file_exists = false →
      save_current_env name w =
        { result := .error .not_valid_project, world := w }) ∧
    (∀ (name : String) (w : ProjWorld), w.env_file_exists = false →
      (save_current_env name w).world = w) := by
  constructor
  · intro name w t hval hw
    unfold save_current_env
    rw [hval]
    dsimp only
    rw [hw]
    rfl
  · intro name w hw
    unfold save_current_env
    cases hval : validate_environment_name name with
    | error e => rfl
    | ok t =>
      dsimp only
      rw [hw]
      rfl

/-- C9 (witness): saving the valid name `"dev"` in a directory without a
`.env` file fails with the project error and leaves the state file intact. -/
theorem C9_save_requires_env_file_witness :
    save_current_env "dev"
      { cwd := "/p", env_file_exists := false,
        state_file := some (.obj [("/q", "prod")]) } =
      { result := .error .not_valid_project,
        world := { cwd := "/p", env_file_exists := false,
                   state_file := some (.obj [("/q", "prod")]) } } :=
  C9_save_requires_env_file.1 "dev" _ "dev" (by decide) rfl

/-- C10: whenever the fetched remote project contains a secret whose title
is one of the provider's client env keys, the pull command stops with the
client-keys warning naming exactly those keys — it computes no diff and
performs no local write, for either value of `--apply`. -/
theorem C10_pull_client_keys_guard (apply : Bool)
    (environment_env_map : List (String × String)) (project : Project)
    (client_env_keys : List String)
    (h : pull_client_overlap project client_env_keys ≠ []) :
    pull_cmd_core apply environment_env_map project client_env_keys =
      .client_keys_warning (pull_client_overlap project client_env_keys) := by
  unfold pull_cmd_core
  rw [if_pos (List.length_pos.mpr h)]

/-- C10 (witness): a remote secret titled like the provider token key makes
the pull command warn and stop, even with `--apply`. -/
theorem C10_pull_client_keys_guard_witness :
    pull_cmd_core true [("A", "b")]
      { id := "p1", title := "proj",
        secrets := [⟨"1", "OP_SERVICE_ACCOUNT_TOKEN", "t"⟩, ⟨"2", "API_KEY", "x"⟩] }
      ["OP_SERVICE_ACCOUNT_TOKEN"] =
      .client_keys_warning ["OP_SERVICE_ACCOUNT_TOKEN"] :=
  C10_pull_client_keys_guard true [("A", "b")] _ _ (by decide)

end Dotman
